import Mathlib

/-!
Verification of the statement-splitting parser session of `pg_statement_splitter`
(`src/crates/pg_statement_splitter/src/parser.rs`), embedded shallowly.

The external lexer crate (`pg_lexer`) and the `text_size` crate are out of
scope of the repository sources; their interface types (`SyntaxKind`,
`Token`, `WHITESPACE_TOKENS`, `TextRange`) are modelled from the spec at
the interface boundary. Machine `usize` indices are modelled as `Nat`
(the parser only ever increments positions, so no overflow arithmetic is
involved for realistic inputs and none is performed modulo a word size in
a way the claims depend on). Rust panics (`assert!`, `todo!`,
`Option::unwrap`/`expect`) are modelled as `Except.error` / `Option.none`
so that aborting and returning normally are distinguishable.
-/

/-- Modelled from the spec: `SyntaxKind` is a closed enumeration produced by the
external tokenizer (`pg_lexer`, not part of the visible sources); we include the
kinds the visible core mentions (`Newline`, `Eof`, the DDL/DML leading keywords,
the statement terminator) plus representative whitespace-like and identifier
kinds. -/
inductive SyntaxKind where
  | Whitespace
  | Newline
  | Tab
  | Create
  | Alter
  | Select
  | Insert
  | Update
  | Delete
  | Semicolon
  | Ident
  | Eof
  deriving DecidableEq, Repr

/-- Modelled from the spec: the subset of `SyntaxKind` tagged "whitespace-like"
by the external tokenizer (`WHITESPACE_TOKENS` in `pg_lexer`). `Newline` is
whitespace-like; `Eof` is not. -/
def WHITESPACE_TOKENS : List SyntaxKind :=
  [SyntaxKind.Whitespace, SyntaxKind.Newline, SyntaxKind.Tab]

/-- A byte range over the source text (the `text_size` crate's `TextRange`,
modelled from the spec as a pair of byte offsets; `endPos` is the exclusive
end offset). -/
structure TextRange where
  start : Nat
  endPos : Nat
  deriving DecidableEq, Repr

/-- `TextRange::new(start, end)`. -/
def TextRange.new (s e : Nat) : TextRange := ⟨s, e⟩

/-- Modelled from the spec: the external tokenizer's token,
`{kind, text slice, byte span}`. `text` character count is what
`t.text.chars().count()` computes in the source (`String.length` in Lean
counts characters). -/
structure Token where
  kind : SyntaxKind
  text : String
  span : TextRange
  deriving DecidableEq, Repr

/-- Modelled from the spec: `Token::eof(pos)` builds the synthetic end-of-input
sentinel: kind `Eof`, empty text, zero-length span positioned at `pos`. -/
def Token.eof (pos : Nat) : Token :=
  ⟨SyntaxKind.Eof, "", TextRange.new pos pos⟩

/-- Modelled from the spec: `SyntaxError` is `{message, optional byte
position}` (`src/crates/pg_statement_splitter/src/syntax_error.rs` is not in
the visible sources). -/
structure SyntaxError where
  message : String
  position : Option Nat
  deriving DecidableEq, Repr

/-- `is_irrelevant_token` (parser.rs:166-169): whitespace-like and not a
multi-character newline. -/
def is_irrelevant_token (t : Token) : Bool :=
  WHITESPACE_TOKENS.contains t.kind
    && (t.kind != SyntaxKind.Newline || t.text.length == 1)

/-- The filter predicate of `Parser::new` (parser.rs:45-48): keep a token iff
it is not whitespace-like, or it is a newline whose text has more than one
character. -/
def retained (t : Token) : Bool :=
  !WHITESPACE_TOKENS.contains t.kind
    || (t.kind == SyntaxKind.Newline && t.text.length > 1)

/-- The parser session state (`Parser` in parser.rs:14-27). -/
structure Parser where
  /-- The ranges of the statements: pairs of token indices. -/
  ranges : List (Nat × Nat)
  /-- The syntax errors accumulated during parsing. -/
  errors : List SyntaxError
  /-- The start of the current statement, if any. -/
  current_stmt_start : Option Nat
  /-- The tokens to parse. -/
  tokens : List Token
  eof_token : Token
  next_pos : Nat
  deriving DecidableEq, Repr

/-- Result of building (`Parse` in parser.rs:31-36). -/
structure Parse where
  ranges : List TextRange
  errors : List SyntaxError
  deriving DecidableEq, Repr

/-- The initialisation loop of `Parser::new` (parser.rs:60-69): count the
leading irrelevant tokens. The source loop reads `tokens.get(next_pos)`
falling back to the sentinel; the sentinel has kind `Eof`, which is never
whitespace-like, so the loop always breaks no later than index
`tokens.len()`, i.e. the final `next_pos` is the number of leading
irrelevant tokens. -/
def skipCount : List Token → Nat
  | [] => 0
  | t :: ts => if is_irrelevant_token t then skipCount ts + 1 else 0

/-- `Parser::new` (parser.rs:39-79). The call to the external `lex(sql)` is at
the interface boundary; the session is constructed from its output token
sequence. Filters whitespace except multi-character newlines, builds the
sentinel from `span.start()` of the last retained token (0 if none), and
initialises `next_pos` past leading irrelevant tokens. -/
def Parser.new (lexed : List Token) : Parser :=
  let tokens := lexed.filter retained
  let eof_token := Token.eof (((tokens.getLast?).map (fun t => t.span.start)).getD 0)
  let next_pos := skipCount tokens
  { ranges := []
    eof_token := eof_token
    errors := []
    current_stmt_start := none
    tokens := tokens
    next_pos := next_pos }

/-- `Parser::finish` (parser.rs:81-96). For each recorded span `(start, end)`,
`tokens.get(start)` is `unwrap`ped — a panic (here: `none`) if out of bounds —
while `tokens.get(end)` falls back to the sentinel. -/
def Parser.finish (p : Parser) : Option Parse :=
  (p.ranges.mapM (fun se =>
      (p.tokens.get? se.1).map (fun f =>
        TextRange.new f.span.start ((p.tokens.getD se.2 p.eof_token).span.endPos)))).map
    (fun rs => { ranges := rs, errors := p.errors })

/-- `Parser::start_stmt` (parser.rs:99-102). The `assert!` panic is modelled
as `Except.error`. -/
def Parser.start_stmt (p : Parser) : Except String Parser :=
  if p.current_stmt_start.isNone then
    Except.ok { p with current_stmt_start := some p.next_pos }
  else
    Except.error "assertion failed: self.current_stmt_start.is_none()"

/-- `Parser::close_stmt` (parser.rs:105-114). The `assert!` and the
`Option::expect` panics are modelled as `Except.error`. -/
def Parser.close_stmt (p : Parser) : Except String Parser :=
  if 0 < p.next_pos then
    match p.current_stmt_start with
    | some s =>
        Except.ok { p with ranges := p.ranges ++ [(s, p.next_pos - 1)],
                           current_stmt_start := none }
    | none => Except.error "Expected active statement"
  else
    Except.error "assertion failed: self.next_pos > 0"

/-- The loop body of `Parser::advance` (parser.rs:118-131), with explicit
fuel: each recursive call is one loop iteration; `none` means the fuel was
exhausted before the loop returned. `first` is `first_relevant_token`;
the returned `Nat` is the final `next_pos`. -/
def advanceAux (ts : List Token) (eofTok : Token) :
    Nat → Nat → Option Token → Option (Token × Nat)
  | 0, _, _ => none
  | fuel + 1, pos, first =>
    let token := ts.getD pos eofTok
    if is_irrelevant_token token then
      advanceAux ts eofTok fuel (pos + 1) first
    else
      match first with
      | some t => some (t, pos)
      | none => advanceAux ts eofTok fuel (pos + 1) (some token)

/-- `Parser::advance` (parser.rs:116-132). The source loop is unbounded; it is
run here with fuel `tokens.len - next_pos + 2`, the iteration bound the
sentinel guarantees (proved below), so `none` is reachable only in states
whose sentinel is irrelevant — states the program never constructs. -/
def Parser.advance (p : Parser) : Option (Token × Parser) :=
  (advanceAux p.tokens p.eof_token (p.tokens.length - p.next_pos + 2) p.next_pos none).map
    (fun tp => (tp.1, { p with next_pos := tp.2 }))

/-- `Parser::peek` (parser.rs:134-139). -/
def Parser.peek (p : Parser) : Token :=
  match p.tokens.get? p.next_pos with
  | some token => token
  | none => p.eof_token

/-- `Parser::eat` (parser.rs:143-150): checks if the current token is of
`kind` and advances if true. -/
def Parser.eat (p : Parser) (kind : SyntaxKind) : Option (Bool × Parser) :=
  if p.peek.kind = kind then
    (p.advance).map (fun tp => (true, tp.2))
  else
    some (false, p)

/-- `Parser::error_at` (parser.rs:161-163): the body is `todo!()`, an
unconditional panic ("not yet implemented"), modelled as `Except.error`.
Its doc comment promises to collect a `SyntaxError` at the current
position; the body does not. -/
def Parser.error_at (_p : Parser) (_error : String) : Except String Parser :=
  Except.error "not yet implemented"

/-- `Parser::expect` (parser.rs:152-158). `none` from `eat` (fuel
exhaustion inside `advance`) is surfaced as a non-termination marker. -/
def Parser.expect (p : Parser) (kind : SyntaxKind) : Except String Parser :=
  match p.eat kind with
  | some (true, p') => Except.ok p'
  | some (false, p') => p'.error_at ("Expected " ++ reprStr kind)
  | none => Except.error "nontermination"

/-- A concrete one-token fixture (a `select` keyword over bytes 0..6), used by
the witnesses below. -/
def tokSelect : Token := ⟨SyntaxKind.Select, "select", TextRange.new 0 6⟩

/-- A session over `[tokSelect]` holding one recorded span, a witness fixture. -/
def sessionWithSpan : Parser := { Parser.new [tokSelect] with ranges := [(0, 0)] }

/-- A session over `[tokSelect]` with an open span and one consumed token, a
witness fixture. -/
def sessionOpenSpan : Parser :=
  { Parser.new [tokSelect] with current_stmt_start := some 0, next_pos := 1 }


theorem irr_false_of_kind_eof (t : Token) (h : t.kind = SyntaxKind.Eof) :
    is_irrelevant_token t = false := by
  have hc : WHITESPACE_TOKENS.contains SyntaxKind.Eof = false := rfl
  simp only [is_irrelevant_token, h, hc, Bool.false_and]

theorem advanceAux_some_spec (ts : List Token) (eofTok : Token) (t0 : Token) :
    ∀ fuel pos t pos', advanceAux ts eofTok fuel pos (some t0) = some (t, pos') →
      t = t0 ∧ pos ≤ pos' ∧
      (∀ j, pos ≤ j → j < pos' → is_irrelevant_token (ts.getD j eofTok) = true) ∧
      is_irrelevant_token (ts.getD pos' eofTok) = false := by
  intro fuel
  induction fuel with
  | zero => intro pos t pos' h; simp [advanceAux] at h
  | succ n ih =>
    intro pos t pos' h
    simp only [advanceAux] at h
    split at h
    · rename_i hir
      obtain ⟨ht, hle, hmid, hend⟩ := ih (pos + 1) t pos' h
      refine ⟨ht, by omega, ?_, hend⟩
      intro j hj1 hj2
      rcases Nat.eq_or_lt_of_le hj1 with rfl | hlt
      · exact hir
      · exact hmid j hlt hj2
    · rename_i hir
      rw [Bool.not_eq_true] at hir
      simp only [Option.some.injEq, Prod.mk.injEq] at h
      obtain ⟨ht, hpos⟩ := h
      subst ht
      subst hpos
      exact ⟨rfl, le_refl _, fun j hj1 hj2 => by omega, hir⟩

theorem advanceAux_none_spec (ts : List Token) (eofTok : Token) :
    ∀ fuel pos t pos', advanceAux ts eofTok fuel pos none = some (t, pos') →
      ∃ i, pos ≤ i ∧ i < pos' ∧ t = ts.getD i eofTok ∧
        is_irrelevant_token t = false ∧
        (∀ j, pos ≤ j → j < i → is_irrelevant_token (ts.getD j eofTok) = true) ∧
        (∀ j, i < j → j < pos' → is_irrelevant_token (ts.getD j eofTok) = true) ∧
        is_irrelevant_token (ts.getD pos' eofTok) = false := by
  intro fuel
  induction fuel with
  | zero => intro pos t pos' h; simp [advanceAux] at h
  | succ n ih =>
    intro pos t pos' h
    simp only [advanceAux] at h
    split at h
    · rename_i hir
      obtain ⟨i, hi1, hi2, hti, hrel, hbefore, hafter, hend⟩ := ih (pos + 1) t pos' h
      refine ⟨i, by omega, hi2, hti, hrel, ?_, hafter, hend⟩
      intro j hj1 hj2
      rcases Nat.eq_or_lt_of_le hj1 with rfl | hlt
      · exact hir
      · exact hbefore j hlt hj2
    · rename_i hir
      rw [Bool.not_eq_true] at hir
      obtain ⟨ht, hle, hmid, hend⟩ :=
        advanceAux_some_spec ts eofTok (ts.getD pos eofTok) n (pos + 1) t pos' h
      subst ht
      exact ⟨pos, le_refl _, by omega, rfl, hir, fun j hj1 hj2 => by omega, hmid, hend⟩

theorem advanceAux_some_isSome (ts : List Token) (eofTok : Token) (t0 : Token)
    (heof : is_irrelevant_token eofTok = false) :
    ∀ fuel pos, ts.length - pos < fuel →
      (advanceAux ts eofTok fuel pos (some t0)).isSome = true := by
  intro fuel
  induction fuel with
  | zero => intro pos h; omega
  | succ n ih =>
    intro pos h
    simp only [advanceAux]
    split
    · rename_i hir
      have hlt : pos < ts.length := by
        by_contra hge
        rw [List.getD_eq_default _ _ (by omega)] at hir
        rw [heof] at hir
        exact Bool.false_ne_true hir
      exact ih (pos + 1) (by omega)
    · rfl

theorem advanceAux_none_isSome (ts : List Token) (eofTok : Token)
    (heof : is_irrelevant_token eofTok = false) :
    ∀ fuel pos, ts.length - pos + 1 < fuel →
      (advanceAux ts eofTok fuel pos none).isSome = true := by
  intro fuel
  induction fuel with
  | zero => intro pos h; omega
  | succ n ih =>
    intro pos h
    simp only [advanceAux]
    split
    · rename_i hir
      have hlt : pos < ts.length := by
        by_contra hge
        rw [List.getD_eq_default _ _ (by omega)] at hir
        rw [heof] at hir
        exact Bool.false_ne_true hir
      exact ih (pos + 1) (by omega)
    · exact advanceAux_some_isSome ts eofTok _ heof n (pos + 1) (by omega)

theorem get?_eq_some_getD {α : Type} (l : List α) (d : α) (n : Nat) (h : n < l.length) :
    l.get? n = some (l.getD n d) := by
  rw [List.get?_eq_getElem?, List.getElem?_eq_getElem h, List.getD_eq_getElem?_getD,
    List.getElem?_eq_getElem h]
  rfl

theorem get?_isSome_iff {α : Type} (l : List α) (n : Nat) :
    (l.get? n).isSome = true ↔ n < l.length := by
  rw [List.get?_eq_getElem?]
  rcases Nat.lt_or_ge n l.length with h | h
  · simp [List.getElem?_eq_getElem h, h]
  · rw [List.getElem?_eq_none h]
    simp
    omega

theorem mapM_option_isSome {α β : Type} (f : α → Option β) :
    ∀ l : List α, (l.mapM f).isSome = true ↔ ∀ a ∈ l, (f a).isSome = true := by
  intro l
  induction l with
  | nil =>
    constructor
    · intro _ a ha
      exact absurd ha (List.not_mem_nil a)
    · intro _
      rfl
  | cons a l ih =>
    rw [List.mapM_cons]
    rcases hfa : f a with _ | x
    · constructor
      · intro h
        simp at h
      · intro h
        exfalso
        have hmem := h a (List.mem_cons_self a l)
        rw [hfa] at hmem
        simp at hmem
    · rcases hrest : l.mapM f with _ | xs
      · constructor
        · intro h
          simp at h
        · intro h
          exfalso
          have hl := ih.mpr (fun b hb => h b (List.mem_cons_of_mem a hb))
          rw [hrest] at hl
          simp at hl
      · constructor
        · intro _ b hb
          rcases List.mem_cons.mp hb with rfl | hbl
          · rw [hfa]
            rfl
          · exact (ih.mp (by rw [hrest]; rfl)) b hbl
        · intro _
          simp

theorem mapM_resolve (ts : List Token) (eofTok : Token) :
    ∀ rs : List (Nat × Nat), (∀ se ∈ rs, se.1 < ts.length) →
      (rs.mapM (fun se => (ts.get? se.1).map (fun f =>
          TextRange.new f.span.start ((ts.getD se.2 eofTok).span.endPos))))
        = some (rs.map (fun se => TextRange.new ((ts.getD se.1 eofTok).span.start)
            ((ts.getD se.2 eofTok).span.endPos))) := by
  intro rs
  induction rs with
  | nil => intro _; rfl
  | cons a l ih =>
    intro h
    rw [List.mapM_cons]
    have ha : a.1 < ts.length := h a (List.mem_cons_self a l)
    rw [get?_eq_some_getD ts eofTok a.1 ha]
    rw [ih (fun se hse => h se (List.mem_cons_of_mem a hse))]
    rfl


theorem getD_eq_get?_getD {α : Type} (l : List α) (n : Nat) (d : α) :
    l.getD n d = (l.get? n).getD d := by
  rw [List.getD_eq_getElem?_getD, List.get?_eq_getElem?]

theorem peek_eq_getD (P : Parser) :
    P.peek = P.tokens.getD P.next_pos P.eof_token := by
  unfold Parser.peek
  rw [getD_eq_get?_getD]
  rcases hg : P.tokens.get? P.next_pos with _ | tk <;> rfl

theorem isSome_map {α β : Type} (f : α → β) (o : Option α) :
    (o.map f).isSome = o.isSome := by
  cases o <;> rfl

theorem retained_iff (t : Token) :
    retained t = true ↔
      (¬ (WHITESPACE_TOKENS.contains t.kind = true) ∨
        (t.kind = SyntaxKind.Newline ∧ 1 < t.text.length)) := by
  simp [retained]

theorem advance_spec (P : Parser) (t : Token) (P' : Parser)
    (h : P.advance = some (t, P')) :
    P' = { P with next_pos := P'.next_pos } ∧
    ∃ i, P.next_pos ≤ i ∧ i < P'.next_pos ∧
      t = P.tokens.getD i P.eof_token ∧ is_irrelevant_token t = false ∧
      (∀ j, P.next_pos ≤ j → j < i →
        is_irrelevant_token (P.tokens.getD j P.eof_token) = true) ∧
      (∀ j, i < j → j < P'.next_pos →
        is_irrelevant_token (P.tokens.getD j P.eof_token) = true) ∧
      is_irrelevant_token (P.tokens.getD P'.next_pos P.eof_token) = false := by
  unfold Parser.advance at h
  rcases haux : advanceAux P.tokens P.eof_token (P.tokens.length - P.next_pos + 2)
      P.next_pos none with _ | tp
  · rw [haux] at h
    exact absurd h (by simp)
  · rw [haux] at h
    simp only [Option.map_some', Option.some.injEq, Prod.mk.injEq] at h
    obtain ⟨ht, hP⟩ := h
    subst ht
    subst hP
    obtain ⟨i, hi1, hi2, hti, hrel, hbefore, hafter, hend⟩ :=
      advanceAux_none_spec P.tokens P.eof_token _ P.next_pos tp.1 tp.2 (by rw [haux])
    exact ⟨rfl, i, hi1, hi2, hti, hrel, hbefore, hafter, hend⟩

theorem eat_next_pos_le (P : Parser) (k : SyntaxKind) (b : Bool) (P' : Parser)
    (h : P.eat k = some (b, P')) : P.next_pos ≤ P'.next_pos := by
  unfold Parser.eat at h
  split at h
  · rcases hadv : P.advance with _ | tp
    · rw [hadv] at h
      exact absurd h (by simp)
    · rw [hadv] at h
      simp only [Option.map_some', Option.some.injEq, Prod.mk.injEq] at h
      obtain ⟨hb, hP⟩ := h
      subst hP
      obtain ⟨hP', i, hi1, hi2, _⟩ := advance_spec P tp.1 tp.2 (by rw [hadv])
      omega
  · simp only [Option.some.injEq, Prod.mk.injEq] at h
    obtain ⟨hb, hP⟩ := h
    subst hP
    exact le_refl _

theorem expect_next_pos_le (P : Parser) (k : SyntaxKind) (P' : Parser)
    (h : P.expect k = Except.ok P') : P.next_pos ≤ P'.next_pos := by
  unfold Parser.expect at h
  rcases heat : P.eat k with _ | bp
  · rw [heat] at h
    exact absurd h (by simp)
  · rw [heat] at h
    rcases bp with ⟨b, p'⟩
    cases b
    · exact absurd h (by simp [Parser.error_at])
    · simp only [Except.ok.injEq] at h
      subst h
      exact eat_next_pos_le P k true p' heat

/-- Claim C1: the claim states that `expect(kind)` on a mismatched current token
records a `SyntaxError` at the current position and returns normally. In the
source, `expect` delegates the failure to `error_at`, whose body is `todo!()` —
an unconditional panic — although its own doc comment promises to collect a
`SyntaxError`. Evaluated at the failing input (the session over an empty token
stream, expecting `Create`), the call aborts instead of returning with a
recorded error. -/
theorem expect_mismatch_aborts :
    (Parser.new []).expect SyntaxKind.Create = Except.error "not yet implemented" := rfl

/-- Claim C2: the claim states that violating the span-tracker preconditions
(`start_stmt` twice without `close_stmt`, or `close_stmt` with no open span)
yields an explicit failure result rather than a process abort. In the source
both paths panic (`assert!` and `Option::expect`); the panics are what the
evaluations below hit. -/
theorem stmt_span_preconditions_abort :
    ((Parser.new []).start_stmt.bind Parser.start_stmt)
        = Except.error "assertion failed: self.current_stmt_start.is_none()" ∧
    ((Parser.new [tokSelect]).advance.map (fun tp => tp.2.close_stmt))
        = some (Except.error "Expected active statement") :=
  ⟨rfl, rfl⟩

/-- Claim C3: the claim states that the synthetic end-of-input sentinel has a
zero-length span starting at the end of the last retained token. In the source
the sentinel is built from `span.start()` of the last retained token: for a
retained token spanning bytes 0..6 the sentinel sits at offset 0, not 6. -/
theorem eof_sentinel_at_last_token_start :
    (Parser.new [tokSelect]).tokens = [tokSelect] ∧
    tokSelect.span.endPos = 6 ∧
    (Parser.new [tokSelect]).eof_token = Token.eof 0 :=
  ⟨rfl, rfl, rfl⟩

/-- Claim C4: the filtered token vector built by `Parser.new` preserves the
original order (it is a sublist of the raw sequence) and contains exactly the
tokens that are non-whitespace-like or newline tokens of two or more
characters. -/
theorem new_filters_exactly_significant (lexed : List Token) :
    List.Sublist (Parser.new lexed).tokens lexed ∧
    ∀ t, t ∈ (Parser.new lexed).tokens ↔
      (t ∈ lexed ∧ (¬ (WHITESPACE_TOKENS.contains t.kind = true) ∨
        (t.kind = SyntaxKind.Newline ∧ 1 < t.text.length))) := by
  have htok : (Parser.new lexed).tokens = lexed.filter retained := rfl
  rw [htok]
  refine ⟨List.filter_sublist lexed, ?_⟩
  intro t
  rw [List.mem_filter]
  constructor
  · rintro ⟨hmem, hr⟩
    exact ⟨hmem, (retained_iff t).mp hr⟩
  · rintro ⟨hmem, hr⟩
    exact ⟨hmem, (retained_iff t).mpr hr⟩

/-- Claim C5: when every recorded span's start index is within the token
vector, `finish` resolves each span `(start, end)` to the byte range
`[tokens[start].span.start, tokens[end or eof].span.end)` — the end index
falling back to the sentinel — in recorded order, paired with the accumulated
errors. -/
theorem finish_resolves_spans (P : Parser)
    (h : ∀ se ∈ P.ranges, se.1 < P.tokens.length) :
    P.finish = some ⟨P.ranges.map (fun se =>
      TextRange.new ((P.tokens.getD se.1 P.eof_token).span.start)
        ((P.tokens.getD se.2 P.eof_token).span.endPos)), P.errors⟩ := by
  unfold Parser.finish
  rw [mapM_resolve P.tokens P.eof_token P.ranges h]
  rfl

/-- Witness for C5 at a session holding one recorded span over one token. -/
theorem finish_resolves_spans_witness :
    (∀ se ∈ sessionWithSpan.ranges, se.1 < sessionWithSpan.tokens.length) ∧
    sessionWithSpan.finish = some ⟨sessionWithSpan.ranges.map (fun se =>
      TextRange.new ((sessionWithSpan.tokens.getD se.1 sessionWithSpan.eof_token).span.start)
        ((sessionWithSpan.tokens.getD se.2 sessionWithSpan.eof_token).span.endPos)),
      sessionWithSpan.errors⟩ :=
  ⟨by decide, finish_resolves_spans sessionWithSpan (by decide)⟩

/-- Claim C6: with a span open and `next_pos > 0`, `close_stmt` appends
`(open start, next_pos - 1)` to the span list, clears the open-span marker,
and leaves every other field — in particular `next_pos` — unchanged. -/
theorem close_stmt_appends_span (P : Parser) (s : Nat)
    (hopen : P.current_stmt_start = some s) (hpos : 0 < P.next_pos) :
    P.close_stmt = Except.ok { P with ranges := P.ranges ++ [(s, P.next_pos - 1)], current_stmt_start := none } := by
  unfold Parser.close_stmt
  rw [if_pos hpos, hopen]

/-- Witness for C6 at a session with an open span and one consumed token. -/
theorem close_stmt_appends_span_witness :
    sessionOpenSpan.current_stmt_start = some 0 ∧ 0 < sessionOpenSpan.next_pos ∧
    sessionOpenSpan.close_stmt = Except.ok { sessionOpenSpan with ranges := sessionOpenSpan.ranges ++ [(0, sessionOpenSpan.next_pos - 1)], current_stmt_start := none } :=
  ⟨rfl, by decide, close_stmt_appends_span sessionOpenSpan 0 rfl (by decide)⟩

/-- Claim C7: a successful `advance` returns the first relevant token at or
after `next_pos`, skipping only irrelevant tokens before it, and leaves the
cursor past that token and past any immediately following irrelevant tokens;
consequently `peek` right after `advance` is never an irrelevant token. -/
theorem advance_returns_first_relevant (P : Parser) (t : Token) (P' : Parser)
    (h : P.advance = some (t, P')) :
    P'.tokens = P.tokens ∧ P'.eof_token = P.eof_token ∧
    (∃ i, P.next_pos ≤ i ∧ i < P'.next_pos ∧
      t = P.tokens.getD i P.eof_token ∧ is_irrelevant_token t = false ∧
      (∀ j, P.next_pos ≤ j → j < i →
        is_irrelevant_token (P.tokens.getD j P.eof_token) = true) ∧
      (∀ j, i < j → j < P'.next_pos →
        is_irrelevant_token (P.tokens.getD j P.eof_token) = true)) ∧
    is_irrelevant_token P'.peek = false := by
  obtain ⟨hP', i, hi1, hi2, hti, hrel, hbefore, hafter, hend⟩ := advance_spec P t P' h
  have htok : P'.tokens = P.tokens := by rw [hP']
  have heof : P'.eof_token = P.eof_token := by rw [hP']
  refine ⟨htok, heof, ⟨i, hi1, hi2, hti, hrel, hbefore, hafter⟩, ?_⟩
  rw [peek_eq_getD, htok, heof]
  exact hend

/-- Witness for C7: advancing over a single `select` token returns it and
parks the cursor on the sentinel position. -/
theorem advance_returns_first_relevant_witness :
    (Parser.new [tokSelect]).advance
        = some (tokSelect, { Parser.new [tokSelect] with next_pos := 1 }) ∧
    (({ Parser.new [tokSelect] with next_pos := 1 } : Parser).tokens
        = (Parser.new [tokSelect]).tokens ∧
      ({ Parser.new [tokSelect] with next_pos := 1 } : Parser).eof_token
        = (Parser.new [tokSelect]).eof_token ∧
      (∃ i, (Parser.new [tokSelect]).next_pos ≤ i ∧
        i < ({ Parser.new [tokSelect] with next_pos := 1 } : Parser).next_pos ∧
        tokSelect = (Parser.new [tokSelect]).tokens.getD i (Parser.new [tokSelect]).eof_token ∧
        is_irrelevant_token tokSelect = false ∧
        (∀ j, (Parser.new [tokSelect]).next_pos ≤ j → j < i →
          is_irrelevant_token ((Parser.new [tokSelect]).tokens.getD j
            (Parser.new [tokSelect]).eof_token) = true) ∧
        (∀ j, i < j → j < ({ Parser.new [tokSelect] with next_pos := 1 } : Parser).next_pos →
          is_irrelevant_token ((Parser.new [tokSelect]).tokens.getD j
            (Parser.new [tokSelect]).eof_token) = true)) ∧
      is_irrelevant_token ({ Parser.new [tokSelect] with next_pos := 1 } : Parser).peek = false) :=
  ⟨rfl, advance_returns_first_relevant (Parser.new [tokSelect]) tokSelect
    { Parser.new [tokSelect] with next_pos := 1 } rfl⟩

/-- Claim C8: across the state-returning parser operations (`advance`, `eat`,
`expect`, `start_stmt`, `close_stmt`) the cursor `next_pos` never decreases;
`peek` takes the session immutably and returns a token, so it cannot move the
cursor at all. -/
theorem next_pos_monotone (P : Parser) :
    (∀ t P', P.advance = some (t, P') → P.next_pos ≤ P'.next_pos) ∧
    (∀ k b P', P.eat k = some (b, P') → P.next_pos ≤ P'.next_pos) ∧
    (∀ k P', P.expect k = Except.ok P' → P.next_pos ≤ P'.next_pos) ∧
    (∀ P', P.start_stmt = Except.ok P' → P.next_pos ≤ P'.next_pos) ∧
    (∀ P', P.close_stmt = Except.ok P' → P.next_pos ≤ P'.next_pos) := by
  refine ⟨?_, ?_, ?_, ?_, ?_⟩
  · intro t P' h
    obtain ⟨_, i, hi1, hi2, _⟩ := advance_spec P t P' h
    omega
  · intro k b P' h
    exact eat_next_pos_le P k b P' h
  · intro k P' h
    exact expect_next_pos_le P k P' h
  · intro P' h
    unfold Parser.start_stmt at h
    split at h
    · simp only [Except.ok.injEq] at h
      subst h
      exact le_refl _
    · exact absurd h (by simp)
  · intro P' h
    unfold Parser.close_stmt at h
    split at h
    · rcases hc : P.current_stmt_start with _ | s
      · rw [hc] at h
        exact absurd h (by simp)
      · rw [hc] at h
        simp only [Except.ok.injEq] at h
        subst h
        exact le_refl _
    · exact absurd h (by simp)

/-- Witness for C8: eating the single `select` token moves the cursor from 0
to 1, not backward. -/
theorem next_pos_monotone_witness :
    (Parser.new [tokSelect]).eat SyntaxKind.Select
        = some (true, { Parser.new [tokSelect] with next_pos := 1 }) ∧
    (Parser.new [tokSelect]).next_pos
        ≤ ({ Parser.new [tokSelect] with next_pos := 1 } : Parser).next_pos :=
  ⟨rfl, (next_pos_monotone (Parser.new [tokSelect])).2.1 SyntaxKind.Select true
    { Parser.new [tokSelect] with next_pos := 1 } rfl⟩

/-- Claim C9: the unbounded loop inside `advance` terminates: out-of-bounds
lookups yield the `Eof`-kinded sentinel, which is never irrelevant, so the
loop returns within `tokens.length - next_pos + 2` iterations — exactly the
fuel `Parser.advance` runs `advanceAux` with, so the run is `some`. -/
theorem advance_loop_terminates (P : Parser) (h : P.eof_token.kind = SyntaxKind.Eof) :
    (advanceAux P.tokens P.eof_token (P.tokens.length - P.next_pos + 2)
        P.next_pos none).isSome = true ∧
    (P.advance).isSome = true := by
  have heof := irr_false_of_kind_eof P.eof_token h
  have haux := advanceAux_none_isSome P.tokens P.eof_token heof
    (P.tokens.length - P.next_pos + 2) P.next_pos (by omega)
  refine ⟨haux, ?_⟩
  unfold Parser.advance
  rw [isSome_map]
  exact haux

/-- Witness for C9 at the empty-input session, whose sentinel has kind `Eof`. -/
theorem advance_loop_terminates_witness :
    (Parser.new []).eof_token.kind = SyntaxKind.Eof ∧
    ((advanceAux (Parser.new []).tokens (Parser.new []).eof_token
        ((Parser.new []).tokens.length - (Parser.new []).next_pos + 2)
        (Parser.new []).next_pos none).isSome = true ∧
      ((Parser.new []).advance).isSome = true) :=
  ⟨rfl, advance_loop_terminates (Parser.new []) rfl⟩

/-- Claim C10: `finish` yields a `Parse` (instead of panicking on the
`unwrap`) precisely when every recorded span's start index is strictly below
the token-vector length; an out-of-bounds end index is harmless because it
falls back to the sentinel. -/
theorem finish_ok_iff (P : Parser) :
    (P.finish).isSome = true ↔ ∀ se ∈ P.ranges, se.1 < P.tokens.length := by
  unfold Parser.finish
  rw [isSome_map, mapM_option_isSome]
  constructor
  · intro h se hse
    have h2 := h se hse
    rw [isSome_map] at h2
    exact (get?_isSome_iff P.tokens se.1).mp h2
  · intro h se hse
    rw [isSome_map]
    exact (get?_isSome_iff P.tokens se.1).mpr (h se hse)
